import Mathlib

/-!
Verification of the day-15 coverage solver of Malanius/advent-of-code-2022
(`advent_of_code_2022/day_15/aoc_2022_15.py`) via a shallow embedding.

Python integers become `Int`; Python `None` / raised exceptions become
`Option.none`; Python tuples `(start, end)` become `Int × Int`; the sensor
set and the `row_coverage` dict become lists (a fixed iteration order for
the unordered Python set, and an association list for the dict).
-/

/-- Modelled from the spec: `coord.py` (class `Coord`) is not under `src/`.
The spec's Coordinate is an immutable integer pair with value equality. -/
structure Coord where
  x : Int
  y : Int
deriving DecidableEq

/-- Modelled from the spec: the Coordinate's Manhattan distance operation,
`|x1 - x2| + |y1 - y2|`. -/
def Coord.distance (a b : Coord) : Int :=
  |a.x - b.x| + |a.y - b.y|

/-- Modelled from the spec: `sensor.py` (class `Sensor`) is not under `src/`.
A sensor is a coordinate plus a scan radius, immutable, value equality. -/
structure Sensor where
  coord : Coord
  scan_range : Int
deriving DecidableEq

/-- Modelled from the spec: `Sensor.get_coverage_at_row` (the spec's
`compute_row_interval`). Computes `span = radius - |row - sensor.y|`;
if `span < 0` the sensor does not reach the row (absent result), otherwise
the covered interval is `[sensor.x - span, sensor.x + span]`. -/
def Sensor.get_coverage_at_row (s : Sensor) (row : Int) : Option (Int × Int) :=
  let span := s.scan_range - |row - s.coord.y|
  if span < 0 then none else some (s.coord.x - span, s.coord.x + span)

/-- Key order used by `sorted(ranges, key=lambda x: x[0])`. -/
def startLE (a b : Int × Int) : Prop := a.1 ≤ b.1

instance : DecidableRel startLE :=
  fun a b => inferInstanceAs (Decidable (a.1 ≤ b.1))

instance : IsTotal (Int × Int) startLE :=
  ⟨fun a b => Int.le_total a.1 b.1⟩

instance : IsTrans (Int × Int) startLE :=
  ⟨fun _ _ _ h1 h2 => le_trans h1 h2⟩

/-- The fold body of `blend_coverage_ranges`: `last` is the current last
element of `blended_ranges` and the returned list is everything the loop
will still emit (earlier elements of `blended_ranges` are frozen once a new
interval is appended after them). -/
def blendGo (last : Int × Int) : List (Int × Int) → List (Int × Int)
  | [] => [last]
  | cur :: tl =>
    if cur.1 ≤ last.2 + 1 ∧ last.2 ≤ cur.2 then
      blendGo (last.1, cur.2) tl
    else if cur.1 ≤ last.2 ∧ cur.2 ≤ last.2 then
      blendGo last tl
    else
      last :: blendGo cur tl

/-- `blend_coverage_ranges`: sort by interval start, seed the result with the
first sorted interval, then fold every sorted interval into the last kept
one. Indexing `ranges[0]` of an empty list raises in Python: `none`. -/
def blend_coverage_ranges (ranges : List (Int × Int)) : Option (List (Int × Int)) :=
  match List.insertionSort startLE ranges with
  | [] => none
  | first :: rest => some (blendGo first (first :: rest))

/-- `get_sensors_coverage_at_row`: per-sensor intervals reaching the row
(dropping absent ones, as the list comprehension's truthiness filter does)
handed straight to `blend_coverage_ranges`. -/
def get_sensors_coverage_at_row (sensors : List Sensor) (row : Int) :
    Option (List (Int × Int)) :=
  blend_coverage_ranges (sensors.filterMap fun s => s.get_coverage_at_row row)

/-- The sensor-building loop shared by `part1` and `part2`: each
sensor/beacon pair yields a `Sensor` whose radius is the Manhattan distance
to its beacon; the Python `set` becomes a deduplicated list. -/
def mkSensors (data : List (Coord × Coord)) : List Sensor :=
  (data.map fun p => Sensor.mk p.1 (p.1.distance p.2)).dedup

/-- `part1`: sum of `end - start + 1` over the merged row coverage minus the
number of distinct beacons lying on the row. -/
def part1 (data : List (Coord × Coord)) (row : Int) : Option Int :=
  match get_sensors_coverage_at_row (mkSensors data) row with
  | none => none
  | some covered_at_row =>
    some ((covered_at_row.map fun p => p.2 - p.1 + 1).sum
      - (((data.map Prod.snd).filter fun b => b.y = row).dedup.length : Int))

/-- `is_covered`: linear scan with early exit. -/
def is_covered (coverage : List (Int × Int)) (x : Int) : Bool :=
  match coverage with
  | [] => false
  | p :: tl => if p.1 ≤ x ∧ x ≤ p.2 then true else is_covered tl x

/-- Lookup in the `row_coverage` dict (`dict.get`). -/
def lookupRow : List (Int × List (Int × Int)) → Int → Option (List (Int × Int))
  | [], _ => none
  | e :: tl, r => if r = e.1 then some e.2 else lookupRow tl r

/-- `covered_above` / `covered_below` computation of `part2`:
`is_covered(row_coverage.get(r), x)` when that row is present, else False. -/
def coveredAt (rowCov : List (Int × List (Int × Int))) (r x : Int) : Bool :=
  (lookupRow rowCov r).elim false fun cov => is_covered cov x

/-- The single-point-gap test of `part2`'s pair loop:
`right[0] - left[1] == 2` recognises the gap and `left[1] + 1` is the
missing x. -/
def gap_candidate (left right : Int × Int) : Option Int :=
  if right.1 - left.2 = 2 then some (left.2 + 1) else none

/-- The `for left, right in pairwise(coverage)` loop of `part2` for one
candidate row: report `(x, row)` for the first gap of exactly 2 whose
missing x is covered on the rows directly above and below. -/
def searchPairs (rowCov : List (Int × List (Int × Int))) (row : Int) :
    List (Int × Int) → Option (Int × Int)
  | l :: r :: tl =>
    match gap_candidate l r with
    | some x =>
      if coveredAt rowCov (row - 1) x && coveredAt rowCov (row + 1) x then
        some (x, row)
      else searchPairs rowCov row (r :: tl)
    | none => searchPairs rowCov row (r :: tl)
  | _ => none

/-- The `for row in row_candidates` loop of `part2`; each candidate carries
its (always present) coverage from the `row_coverage` dict. -/
def searchRows (rowCov : List (Int × List (Int × Int))) :
    List (Int × List (Int × Int)) → Option (Int × Int)
  | [] => none
  | e :: tl =>
    match searchPairs rowCov e.1 e.2 with
    | some res => some res
    | none => searchRows rowCov tl

/-- The rows `range(0, search_area_size + 1)` scanned by `part2`. -/
def rowRange (search_area_size : Int) : List Int :=
  (List.range (search_area_size + 1).toNat).map Int.ofNat

/-- The first loop of `part2`: build the `row_coverage` dict over the search
rows, keeping only rows with (non-empty) coverage; an error while merging a
row's coverage aborts the whole computation. -/
def buildRowCoverage (sensors : List Sensor) :
    List Int → Option (List (Int × List (Int × Int)))
  | [] => some []
  | r :: tl =>
    (get_sensors_coverage_at_row sensors r).bind fun cov =>
    (buildRowCoverage sensors tl).map fun rest =>
    if cov.isEmpty then rest else (r, cov) :: rest

/-- The search of `part2` up to (but not including) the final
`x * 4_000_000 + row` encoding: outer `none` is a raised error, inner `none`
is the fall-through `return -1`, `some (x, row)` is a found point. -/
def part2Search (data : List (Coord × Coord)) (search_area_size : Int) :
    Option (Option (Int × Int)) :=
  match buildRowCoverage (mkSensors data) (rowRange search_area_size) with
  | none => none
  | some rowCov =>
    some (searchRows rowCov (rowCov.filter fun e => 1 < e.2.length))

/-- `part2`: tuning frequency of the found point, or the sentinel `-1`. -/
def part2 (data : List (Coord × Coord)) (search_area_size : Int) : Option Int :=
  (part2Search data search_area_size).map fun res =>
    match res with
    | some c => c.1 * 4000000 + c.2
    | none => -1

/-- One-or-more-digits token of the input pattern, greedy, with its
decimal value (`int(match.group(i))`). -/
def lexDigitsAux : Nat → List Char → Nat × List Char
  | acc, [] => (acc, [])
  | acc, c :: tl =>
    if c.isDigit then lexDigitsAux (10 * acc + (c.toNat - 48)) tl else (acc, c :: tl)

/-- Match `\d+` at the head of the character list. -/
def lexDigits : List Char → Option (Nat × List Char)
  | [] => none
  | c :: tl => if c.isDigit then some (lexDigitsAux (c.toNat - 48) tl) else none

/-- Match a literal piece of the input pattern. -/
def dropLit : List Char → List Char → Option (List Char)
  | [], cs => some cs
  | _ :: _, [] => none
  | l :: ls, c :: cs => if c = l then dropLit ls cs else none

/-- `input_regex.match(line)`: the anchored pattern
`Sensor at x=(\d+), y=(\d+): closest beacon is at x=(\d+), y=(\d+)`,
yielding the sensor and beacon coordinates of a matching line. -/
def matchLine (line : List Char) : Option (Coord × Coord) :=
  (dropLit (("Sensor at x=").toList) line).bind fun cs1 =>
  (lexDigits cs1).bind fun p1 =>
  (dropLit ((", y=").toList) p1.2).bind fun cs2 =>
  (lexDigits cs2).bind fun p2 =>
  (dropLit ((": closest beacon is at x=").toList) p2.2).bind fun cs3 =>
  (lexDigits cs3).bind fun p3 =>
  (dropLit ((", y=").toList) p3.2).bind fun cs4 =>
  (lexDigits cs4).bind fun p4 =>
  if p4.2 = [] then
    some (Coord.mk (p1.1 : Int) (p2.1 : Int), Coord.mk (p3.1 : Int) (p4.1 : Int))
  else none

/-- `data[sensor] = beacon` on the insertion-ordered Python dict. -/
def insertPair : List (Coord × Coord) → Coord → Coord → List (Coord × Coord)
  | [], k, v => [(k, v)]
  | e :: tl, k, v => if e.1 = k then (k, v) :: tl else e :: insertPair tl k v

/-- Split the puzzle input into lines (`str.splitlines`). -/
def splitLinesAux : List Char → List Char → List (List Char)
  | [], acc => [acc.reverse]
  | c :: tl, acc =>
    if c = '\n' then acc.reverse :: splitLinesAux tl [] else splitLinesAux tl (c :: acc)

/-- Character lists of the input's lines. -/
def splitLines (s : String) : List (List Char) :=
  splitLinesAux s.toList []

/-- Body of the parsing loop: a matching line stores its sensor/beacon pair,
anything else is skipped silently. -/
def parseStep (m : List (Coord × Coord)) (line : List Char) : List (Coord × Coord) :=
  match matchLine line with
  | some sb => insertPair m sb.1 sb.2
  | none => m

/-- `parse`: fold the parsing loop over the input's lines. -/
def parse (input : String) : List (Coord × Coord) :=
  (splitLines input).foldl parseStep []

/-- Required separation between consecutive merged intervals: a gap of at
least 2 (at least one uncovered integer in between). -/
def gapSep (a b : Int × Int) : Prop := a.2 + 2 ≤ b.1

instance : DecidableRel gapSep :=
  fun a b => inferInstanceAs (Decidable (a.2 + 2 ≤ b.1))

/-- Covering `∃` over a cons cell, split into head and tail cases. -/
theorem exists_cover_cons (a : Int × Int) (l : List (Int × Int)) (x : Int) :
    (∃ p ∈ a :: l, p.1 ≤ x ∧ x ≤ p.2) ↔
      ((a.1 ≤ x ∧ x ≤ a.2) ∨ ∃ p ∈ l, p.1 ≤ x ∧ x ≤ p.2) := by
  constructor
  · rintro ⟨p, hp, hx⟩
    rcases List.mem_cons.mp hp with rfl | hp
    · exact Or.inl hx
    · exact Or.inr ⟨p, hp, hx⟩
  · rintro (hx | ⟨p, hp, hx⟩)
    · exact ⟨a, List.mem_cons_self a l, hx⟩
    · exact ⟨p, List.mem_cons_of_mem a hp, hx⟩

/-- Invariants of one run of the blending fold: starting from a well-formed
`last` whose start is a lower bound for the sorted remaining input, the
emitted list is well-formed, starts at `last.1` with an end at least
`last.2`, keeps gaps of at least 2, and covers exactly `last` plus the
remaining input. -/
theorem blendGo_props (rest : List (Int × Int)) :
    ∀ last : Int × Int,
      last.1 ≤ last.2 →
      (∀ p ∈ rest, p.1 ≤ p.2) →
      (∀ p ∈ rest, last.1 ≤ p.1) →
      List.Pairwise startLE rest →
      (∀ p ∈ blendGo last rest, p.1 ≤ p.2) ∧
      (∃ e2 tl2, blendGo last rest = (last.1, e2) :: tl2 ∧ last.2 ≤ e2) ∧
      List.Chain' gapSep (blendGo last rest) ∧
      (∀ x : Int, (∃ p ∈ blendGo last rest, p.1 ≤ x ∧ x ≤ p.2) ↔
        ((last.1 ≤ x ∧ x ≤ last.2) ∨ ∃ p ∈ rest, p.1 ≤ x ∧ x ≤ p.2)) := by
  induction rest with
  | nil =>
    intro last hlast _ _ _
    refine ⟨?_, ⟨last.2, [], ?_, le_refl _⟩, ?_, ?_⟩
    · intro p hp
      rw [show blendGo last [] = [last] from rfl, List.mem_singleton] at hp
      exact hp ▸ hlast
    · rw [show blendGo last [] = [last] from rfl, Prod.mk.eta]
    · rw [show blendGo last [] = [last] from rfl]
      exact List.chain'_singleton last
    · intro x
      rw [show blendGo last [] = [last] from rfl, exists_cover_cons]
  | cons cur tl ih =>
    intro last hlast hwf hge hsorted
    have hcur_wf : cur.1 ≤ cur.2 := hwf cur (List.mem_cons_self cur tl)
    have hcur_ge : last.1 ≤ cur.1 := hge cur (List.mem_cons_self cur tl)
    have hwf_tl : ∀ p ∈ tl, p.1 ≤ p.2 := fun p hp => hwf p (List.mem_cons_of_mem cur hp)
    have hsorted_tl : List.Pairwise startLE tl := (List.pairwise_cons.mp hsorted).2
    have hcur_le_tl : ∀ p ∈ tl, cur.1 ≤ p.1 := (List.pairwise_cons.mp hsorted).1
    simp only [blendGo]
    by_cases h1 : cur.1 ≤ last.2 + 1 ∧ last.2 ≤ cur.2
    · rw [if_pos h1]
      obtain ⟨hcs, hce⟩ := h1
      have hge_tl : ∀ p ∈ tl, (last.1, cur.2).1 ≤ p.1 := fun p hp =>
        le_trans hcur_ge (hcur_le_tl p hp)
      obtain ⟨iwf, ⟨e2, tl2, heq, hle⟩, ichain, iunion⟩ :=
        ih (last.1, cur.2) (by simp; omega) hwf_tl hge_tl hsorted_tl
      refine ⟨iwf, ⟨e2, tl2, heq, ?_⟩, ichain, ?_⟩
      · simp at hle; omega
      · intro x
        rw [iunion x, exists_cover_cons]
        simp only []
        constructor
        · rintro (⟨ha, hb⟩ | hT)
          · rcases le_or_lt x last.2 with hc | hc
            · exact Or.inl ⟨ha, hc⟩
            · exact Or.inr (Or.inl ⟨by omega, hb⟩)
          · exact Or.inr (Or.inr hT)
        · rintro (⟨ha, hb⟩ | ⟨ha, hb⟩ | hT)
          · exact Or.inl ⟨ha, by omega⟩
          · exact Or.inl ⟨by omega, hb⟩
          · exact Or.inr hT
    · rw [if_neg h1]
      by_cases h2 : cur.1 ≤ last.2 ∧ cur.2 ≤ last.2
      · rw [if_pos h2]
        have hge_tl : ∀ p ∈ tl, last.1 ≤ p.1 := fun p hp => hge p (List.mem_cons_of_mem cur hp)
        obtain ⟨iwf, ihead, ichain, iunion⟩ := ih last hlast hwf_tl hge_tl hsorted_tl
        refine ⟨iwf, ihead, ichain, ?_⟩
        intro x
        rw [iunion x, exists_cover_cons]
        obtain ⟨hcs, hce⟩ := h2
        constructor
        · rintro (h | h)
          · exact Or.inl h
          · exact Or.inr (Or.inr h)
        · rintro (h | ⟨ha, hb⟩ | h)
          · exact Or.inl h
          · exact Or.inl ⟨by omega, by omega⟩
          · exact Or.inr h
      · rw [if_neg h2]
        have hsep : last.2 + 2 ≤ cur.1 := by omega
        obtain ⟨iwf, ⟨e2, tl2, heq, hle⟩, ichain, iunion⟩ :=
          ih cur hcur_wf hwf_tl hcur_le_tl hsorted_tl
        refine ⟨?_, ⟨last.2, blendGo cur tl, by rw [Prod.mk.eta], le_refl _⟩, ?_, ?_⟩
        · intro p hp
          rcases List.mem_cons.mp hp with rfl | hp
          · exact hlast
          · exact iwf p hp
        · rw [heq]
          refine List.chain'_cons.mpr ⟨?_, heq ▸ ichain⟩
          show last.2 + 2 ≤ (cur.1, e2).1
          simpa using hsep
        · intro x
          rw [exists_cover_cons, iunion x, exists_cover_cons]

/-- With well-formed intervals, consecutive separation propagates to all
pairs: the blended list is pairwise separated by gaps of at least 2. -/
theorem chain_gapSep_pairwise (l : List (Int × Int))
    (hwf : ∀ p ∈ l, p.1 ≤ p.2) (hchain : List.Chain' gapSep l) :
    List.Pairwise gapSep l := by
  induction l with
  | nil => exact List.Pairwise.nil
  | cons a tl ih =>
    have hptl : List.Pairwise gapSep tl :=
      ih (fun p hp => hwf p (List.mem_cons_of_mem a hp)) hchain.tail
    rw [List.pairwise_cons]
    refine ⟨?_, hptl⟩
    intro c hc
    cases tl with
    | nil => cases hc
    | cons b tl2 =>
      have hab : gapSep a b := (List.chain'_cons.mp hchain).1
      rcases List.mem_cons.mp hc with rfl | hc2
      · exact hab
      · have hbc : gapSep b c := (List.pairwise_cons.mp hptl).1 c hc2
        have hbwf : b.1 ≤ b.2 := hwf b (by simp)
        unfold gapSep at *
        omega

/-- Pairwise separation of well-formed intervals gives strictly increasing
starts (the output is sorted by start). -/
theorem pairwise_start_lt (l : List (Int × Int))
    (hwf : ∀ p ∈ l, p.1 ≤ p.2) (hp : List.Pairwise gapSep l) :
    List.Pairwise (fun a b : Int × Int => a.1 < b.1) l := by
  refine hp.imp_of_mem ?_
  intro a b ha _ hab
  have := hwf a ha
  unfold gapSep at hab
  omega

/-- Full correctness of `blend_coverage_ranges` on the non-empty,
well-formed inputs of its contract: it succeeds, and the output is a
well-formed, pairwise-separated list covering exactly the input's points. -/
theorem blend_props (ranges : List (Int × Int)) (hne : ranges ≠ [])
    (hwf : ∀ p ∈ ranges, p.1 ≤ p.2) :
    ∃ out, blend_coverage_ranges ranges = some out ∧
      out ≠ [] ∧
      (∀ p ∈ out, p.1 ≤ p.2) ∧
      List.Pairwise gapSep out ∧
      (∀ x : Int, (∃ p ∈ out, p.1 ≤ x ∧ x ≤ p.2) ↔
        ∃ p ∈ ranges, p.1 ≤ x ∧ x ≤ p.2) := by
  cases h : List.insertionSort startLE ranges with
  | nil =>
    exfalso
    apply hne
    have hp := List.perm_insertionSort startLE ranges
    rw [h] at hp
    exact hp.symm.eq_nil
  | cons first rest =>
    have hperm := List.perm_insertionSort startLE ranges
    rw [h] at hperm
    have hmem1 : ∀ p ∈ first :: rest, p ∈ ranges := fun p hp => hperm.mem_iff.mp hp
    have hmem2 : ∀ p ∈ ranges, p ∈ first :: rest := fun p hp => hperm.mem_iff.mpr hp
    have hsorted : List.Pairwise startLE (first :: rest) := by
      have := List.sorted_insertionSort startLE ranges
      rw [h] at this
      exact this
    have hwf' : ∀ p ∈ first :: rest, p.1 ≤ p.2 := fun p hp => hwf p (hmem1 p hp)
    have hge : ∀ p ∈ first :: rest, first.1 ≤ p.1 := by
      intro p hp
      rcases List.mem_cons.mp hp with rfl | hp2
      · exact le_refl _
      · exact (List.pairwise_cons.mp hsorted).1 p hp2
    obtain ⟨owf, ⟨e2, tl2, hhead, _⟩, ochain, ounion⟩ :=
      blendGo_props (first :: rest) first (hwf' first (List.mem_cons_self first rest)) hwf' hge hsorted
    refine ⟨blendGo first (first :: rest), ?_, ?_, owf,
      chain_gapSep_pairwise _ owf ochain, ?_⟩
    · unfold blend_coverage_ranges
      rw [h]
    · rw [hhead]
      exact List.cons_ne_nil _ _
    · intro x
      rw [ounion x]
      constructor
      · rintro (hx | ⟨p, hp, hx⟩)
        · exact ⟨first, hmem1 first (List.mem_cons_self first rest), hx⟩
        · exact ⟨p, hmem1 p hp, hx⟩
      · rintro ⟨p, hp, hx⟩
        exact Or.inr ⟨p, hmem2 p hp, hx⟩

/-- A well-formed list whose consecutive intervals are separated by gaps of
at least 2 is a fixed point of the blending loop body. -/
theorem blendGo_fixed (tl : List (Int × Int)) :
    ∀ last : Int × Int,
      (∀ p ∈ tl, p.1 ≤ p.2) →
      List.Chain' gapSep (last :: tl) →
      blendGo last tl = last :: tl := by
  induction tl with
  | nil => intro last _ _; rfl
  | cons cur tl2 ih =>
    intro last hwf hchain
    have hsep : gapSep last cur := (List.chain'_cons.mp hchain).1
    have hcwf : cur.1 ≤ cur.2 := hwf cur (by simp)
    unfold gapSep at hsep
    simp only [blendGo]
    rw [if_neg (by omega), if_neg (by omega)]
    rw [ih cur (fun p hp => hwf p (List.mem_cons_of_mem cur hp)) (List.chain'_cons.mp hchain).2]

/-- A non-empty, well-formed, gap-separated list is a fixed point of
`blend_coverage_ranges`. -/
theorem blend_fixed (l : List (Int × Int)) (hne : l ≠ [])
    (hwf : ∀ p ∈ l, p.1 ≤ p.2) (hchain : List.Chain' gapSep l) :
    blend_coverage_ranges l = some l := by
  have hlt : List.Pairwise (fun a b : Int × Int => a.1 < b.1) l :=
    pairwise_start_lt l hwf (chain_gapSep_pairwise l hwf hchain)
  have hsorted : List.Pairwise startLE l := hlt.imp fun hab => le_of_lt hab
  have hss : List.insertionSort startLE l = l :=
    List.Sorted.insertionSort_eq hsorted
  cases l with
  | nil => exact absurd rfl hne
  | cons first tl =>
    unfold blend_coverage_ranges
    rw [hss]
    show some (blendGo first (first :: tl)) = some (first :: tl)
    have hfwf : first.1 ≤ first.2 := hwf first (by simp)
    have h1 : blendGo first (first :: tl) = blendGo first tl := by
      simp only [blendGo]
      rw [if_pos ⟨by omega, le_refl _⟩, Prod.mk.eta]
    rw [h1, blendGo_fixed tl first (fun p hp => hwf p (List.mem_cons_of_mem first hp)) hchain]

/-- A true `coveredAt` needs the row present in the coverage dict. -/
theorem coveredAt_lookup (rc : List (Int × List (Int × Int))) (r x : Int)
    (h : coveredAt rc r x = true) : ∃ c, lookupRow rc r = some c := by
  unfold coveredAt at h
  cases hl : lookupRow rc r with
  | none => rw [hl] at h; cases h
  | some c => exact ⟨c, rfl⟩

/-- A successful dict lookup means the key occurs in the association list. -/
theorem lookupRow_mem (rc : List (Int × List (Int × Int))) (r : Int)
    (c : List (Int × Int)) (h : lookupRow rc r = some c) :
    ∃ e ∈ rc, e.1 = r := by
  induction rc with
  | nil => cases h
  | cons e tl ih =>
    by_cases hr : r = e.1
    · exact ⟨e, List.mem_cons_self e tl, hr.symm⟩
    · rw [show lookupRow (e :: tl) r = lookupRow tl r by
          simp [lookupRow, hr]] at h
      obtain ⟨e2, he2, hkey⟩ := ih h
      exact ⟨e2, List.mem_cons_of_mem e he2, hkey⟩

/-- Every key of the built `row_coverage` dict is one of the scanned rows. -/
theorem buildRowCoverage_keys (sensors : List Sensor) (rows : List Int) :
    ∀ rc, buildRowCoverage sensors rows = some rc → ∀ e ∈ rc, e.1 ∈ rows := by
  induction rows with
  | nil =>
    intro rc h e he
    simp only [buildRowCoverage, Option.some.injEq] at h
    subst h
    cases he
  | cons r tl ih =>
    intro rc h e he
    simp only [buildRowCoverage] at h
    obtain ⟨cov, _, h2⟩ := Option.bind_eq_some.mp h
    obtain ⟨rest, hrest, h3⟩ := Option.map_eq_some'.mp h2
    subst h3
    by_cases hemp : cov.isEmpty
    · rw [if_pos hemp] at he
      exact List.mem_cons_of_mem r (ih rest hrest e he)
    · rw [if_neg hemp] at he
      rcases List.mem_cons.mp he with rfl | he2
      · exact List.mem_cons_self r tl
      · exact List.mem_cons_of_mem r (ih rest hrest e he2)

/-- Members of the scanned row range lie between 0 and the search size. -/
theorem rowRange_mem (search_area_size y : Int) (h : y ∈ rowRange search_area_size) :
    0 ≤ y ∧ y ≤ search_area_size := by
  unfold rowRange at h
  obtain ⟨k, hk, hky⟩ := List.mem_map.mp h
  rw [List.mem_range] at hk
  subst hky
  simp only [Int.ofNat_eq_natCast]
  omega

/-- What a successful pair scan of one candidate row guarantees: the
reported row is the scanned row, the reported x arises from an adjacent
pair with a gap of exactly 2, and x is covered on the rows directly above
and below. -/
theorem searchPairs_sound (rc : List (Int × List (Int × Int))) (row : Int) :
    ∀ (cov : List (Int × Int)) (x r : Int),
      searchPairs rc row cov = some (x, r) →
      r = row ∧ (∃ p ∈ cov.zip cov.tail, gap_candidate p.1 p.2 = some x) ∧
      coveredAt rc (row - 1) x = true ∧ coveredAt rc (row + 1) x = true := by
  intro cov
  induction cov with
  | nil => intro x r h; cases h
  | cons a tl ih =>
    cases tl with
    | nil => intro x r h; cases h
    | cons b tl2 =>
      intro x r h
      simp only [searchPairs] at h
      split at h
      next x0 hg =>
        split at h
        next hc =>
          rw [Bool.and_eq_true] at hc
          obtain ⟨hca, hcb⟩ := hc
          obtain ⟨rfl, rfl⟩ : x0 = x ∧ row = r := by
            have := Option.some.inj h
            exact ⟨congrArg Prod.fst this, congrArg Prod.snd this⟩
          refine ⟨rfl, ⟨(a, b), ?_, hg⟩, hca, hcb⟩
          rw [show (a :: b :: tl2).zip (a :: b :: tl2).tail
                = (a, b) :: (b :: tl2).zip tl2 from rfl]
          exact List.mem_cons_self _ _
        next hc =>
          obtain ⟨h1, ⟨p, hp, hx⟩, h3, h4⟩ := ih x r h
          refine ⟨h1, ⟨p, ?_, hx⟩, h3, h4⟩
          rw [show (a :: b :: tl2).zip (a :: b :: tl2).tail
                = (a, b) :: (b :: tl2).zip tl2 from rfl]
          exact List.mem_cons_of_mem _ hp
      next hg =>
        obtain ⟨h1, ⟨p, hp, hx⟩, h3, h4⟩ := ih x r h
        refine ⟨h1, ⟨p, ?_, hx⟩, h3, h4⟩
        rw [show (a :: b :: tl2).zip (a :: b :: tl2).tail
              = (a, b) :: (b :: tl2).zip tl2 from rfl]
        exact List.mem_cons_of_mem _ hp

/-- A hit of the candidate-row loop comes from some candidate row whose
pair scan reported it. -/
theorem searchRows_sound (rc : List (Int × List (Int × Int))) :
    ∀ (cands : List (Int × List (Int × Int))) (x r : Int),
      searchRows rc cands = some (x, r) →
      ∃ c, (r, c) ∈ cands ∧ searchPairs rc r c = some (x, r) := by
  intro cands
  induction cands with
  | nil => intro x r h; cases h
  | cons e tl ih =>
    intro x r h
    simp only [searchRows] at h
    cases hs : searchPairs rc e.1 e.2 with
    | none =>
      rw [hs] at h
      obtain ⟨c, hc, hsp⟩ := ih x r h
      exact ⟨c, List.mem_cons_of_mem e hc, hsp⟩
    | some res =>
      rw [hs] at h
      have hres : res = (x, r) := Option.some.inj h
      subst hres
      have hrow : r = e.1 := (searchPairs_sound rc e.1 e.2 x r hs).1
      subst hrow
      exact ⟨e.2, by rw [show ((e.1 : Int), e.2) = e from Prod.mk.eta]
                     exact List.mem_cons_self e tl, hs⟩

/-- Coordinates produced by a line match are casts of the matched digit
groups, hence non-negative. -/
theorem matchLine_nonneg (line : List Char) (s b : Coord)
    (h : matchLine line = some (s, b)) :
    0 ≤ s.x ∧ 0 ≤ s.y ∧ 0 ≤ b.x ∧ 0 ≤ b.y := by
  simp only [matchLine, Option.bind_eq_some] at h
  obtain ⟨cs1, -, p1, -, cs2, -, p2, -, cs3, -, p3, -, cs4, -, p4, -, hfin⟩ := h
  split at hfin
  · simp only [Option.some.injEq, Prod.mk.injEq] at hfin
    obtain ⟨hs, hb⟩ := hfin
    subst hs
    subst hb
    exact ⟨Int.natCast_nonneg _, Int.natCast_nonneg _, Int.natCast_nonneg _,
      Int.natCast_nonneg _⟩
  · cases hfin

/-- Membership after a dict insertion: the new pair or an old entry. -/
theorem insertPair_mem (m : List (Coord × Coord)) (k v : Coord) :
    ∀ p ∈ insertPair m k v, p = (k, v) ∨ p ∈ m := by
  induction m with
  | nil =>
    intro p hp
    rw [show insertPair [] k v = [(k, v)] from rfl, List.mem_singleton] at hp
    exact Or.inl hp
  | cons e tl ih =>
    intro p hp
    simp only [insertPair] at hp
    split at hp
    · rcases List.mem_cons.mp hp with rfl | hp2
      · exact Or.inl rfl
      · exact Or.inr (List.mem_cons_of_mem e hp2)
    · rcases List.mem_cons.mp hp with rfl | hp2
      · exact Or.inr (List.mem_cons_self p tl)
      · rcases ih p hp2 with h | h
        · exact Or.inl h
        · exact Or.inr (List.mem_cons_of_mem e h)

/-- The parsing fold preserves any property granted by line matches. -/
theorem parse_foldl_inv (P : Coord × Coord → Prop)
    (hP : ∀ line sb, matchLine line = some sb → P sb) :
    ∀ (lines : List (List Char)) (m : List (Coord × Coord)),
      (∀ p ∈ m, P p) → ∀ p ∈ List.foldl parseStep m lines, P p := by
  intro lines
  induction lines with
  | nil => intro m hm p hp; exact hm p hp
  | cons line tl ih =>
    intro m hm p hp
    rw [List.foldl_cons] at hp
    refine ih (parseStep m line) ?_ p hp
    intro q hq
    unfold parseStep at hq
    cases hl : matchLine line with
    | none => rw [hl] at hq; exact hm q hq
    | some sb =>
      rw [hl] at hq
      rcases insertPair_mem m sb.1 sb.2 q hq with rfl | h
      · exact hP line (sb.1, sb.2) (by rw [Prod.mk.eta]; exact hl)
      · exact hm q h

/-- C1: for every non-empty list of intervals, each with start ≤ end,
`blend_coverage_ranges` succeeds and returns a sequence of intervals sorted
by start, pairwise disjoint with a gap of at least 2 between intervals,
whose union of integer points equals the union of integer points of the
input intervals. -/
theorem blend_coverage_ranges_correct (ranges : List (Int × Int))
    (hne : ranges ≠ []) (hwf : ∀ p ∈ ranges, p.1 ≤ p.2) :
    ∃ out, blend_coverage_ranges ranges = some out ∧
      (∀ p ∈ out, p.1 ≤ p.2) ∧
      List.Pairwise (fun a b : Int × Int => a.1 < b.1) out ∧
      List.Pairwise gapSep out ∧
      (∀ x : Int, (∃ p ∈ out, p.1 ≤ x ∧ x ≤ p.2) ↔
        ∃ p ∈ ranges, p.1 ≤ x ∧ x ≤ p.2) := by
  obtain ⟨out, h1, -, h2, h3, h4⟩ := blend_props ranges hne hwf
  exact ⟨out, h1, h2, pairwise_start_lt out h2 h3, h3, h4⟩

theorem blend_coverage_ranges_correct_witness :
    (([((3 : Int), (4 : Int)), (0, 1), (7, 9)] : List (Int × Int)) ≠ [] ∧
      ∀ p ∈ ([((3 : Int), (4 : Int)), (0, 1), (7, 9)] : List (Int × Int)), p.1 ≤ p.2) ∧
    ∃ out, blend_coverage_ranges [((3 : Int), (4 : Int)), (0, 1), (7, 9)] = some out ∧
      (∀ p ∈ out, p.1 ≤ p.2) ∧
      List.Pairwise (fun a b : Int × Int => a.1 < b.1) out ∧
      List.Pairwise gapSep out ∧
      (∀ x : Int, (∃ p ∈ out, p.1 ≤ x ∧ x ≤ p.2) ↔
        ∃ p ∈ [((3 : Int), (4 : Int)), (0, 1), (7, 9)], p.1 ≤ x ∧ x ≤ p.2) :=
  ⟨⟨by decide, by decide⟩,
    blend_coverage_ranges_correct _ (by decide) (by decide)⟩

/-- C7: `blend_coverage_ranges` is idempotent on the non-empty well-formed
inputs of its contract: blending an already-blended list returns it
unchanged. -/
theorem blend_coverage_ranges_idempotent (ranges out : List (Int × Int))
    (hne : ranges ≠ []) (hwf : ∀ p ∈ ranges, p.1 ≤ p.2)
    (h : blend_coverage_ranges ranges = some out) :
    blend_coverage_ranges out = some out := by
  obtain ⟨out2, h2, hne2, owf, opw, -⟩ := blend_props ranges hne hwf
  rw [h] at h2
  have heq : out2 = out := (Option.some.inj h2).symm
  rw [heq] at hne2 owf opw
  exact blend_fixed out hne2 owf opw.chain'

theorem blend_coverage_ranges_idempotent_witness :
    (([((4 : Int), (5 : Int)), (0, 1)] : List (Int × Int)) ≠ [] ∧
      (∀ p ∈ ([((4 : Int), (5 : Int)), (0, 1)] : List (Int × Int)), p.1 ≤ p.2) ∧
      blend_coverage_ranges [((4 : Int), (5 : Int)), (0, 1)] = some [(0, 1), (4, 5)]) ∧
    blend_coverage_ranges [((0 : Int), (1 : Int)), (4, 5)] = some [(0, 1), (4, 5)] :=
  ⟨⟨by decide, by decide, by decide⟩,
    blend_coverage_ranges_idempotent [((4 : Int), (5 : Int)), (0, 1)]
      [((0 : Int), (1 : Int)), (4, 5)] (by decide) (by decide) (by decide)⟩

/-- C6: in `part2`'s examination of a consecutive merged pair, a
single-point gap is recognised exactly when `right.start - left.end = 2`,
with missing x `left.end + 1`; `[0,4]` next to `[7,10]` yields no candidate
while `[0,4]` next to `[6,10]` yields 5. -/
theorem gap_candidate_spec :
    (∀ (l r : Int × Int) (x : Int),
      gap_candidate l r = some x ↔ r.1 - l.2 = 2 ∧ x = l.2 + 1) ∧
    gap_candidate (0, 4) (7, 10) = none ∧
    gap_candidate (0, 4) (6, 10) = some 5 := by
  refine ⟨?_, by decide, by decide⟩
  intro l r x
  unfold gap_candidate
  split
  next hgap =>
    constructor
    · intro h
      exact ⟨hgap, (Option.some.inj h).symm⟩
    · rintro ⟨-, rfl⟩
      rfl
  next hgap =>
    constructor
    · intro h
      cases h
    · rintro ⟨hg, -⟩
      exact absurd hg hgap

/-- C5: whenever `part1` produces a count, that count is the sum of
`end - start + 1` over the merged intervals of the row minus the number of
distinct beacon coordinates whose y equals the row. -/
theorem part1_covered_count (data : List (Coord × Coord)) (row v : Int)
    (h : part1 data row = some v) :
    ∃ merged, get_sensors_coverage_at_row (mkSensors data) row = some merged ∧
      v = (merged.map fun p => p.2 - p.1 + 1).sum
        - ((((data.map Prod.snd).filter fun b => b.y = row).toFinset.card) : Int) := by
  unfold part1 at h
  cases hc : get_sensors_coverage_at_row (mkSensors data) row with
  | none =>
    rw [hc] at h
    cases h
  | some merged =>
    rw [hc] at h
    have hv := Option.some.inj h
    refine ⟨merged, rfl, ?_⟩
    rw [← hv, List.card_toFinset]

theorem part1_covered_count_witness :
    part1 [(Coord.mk 0 0, Coord.mk 2 0)] 0 = some 4 ∧
    ∃ merged,
      get_sensors_coverage_at_row (mkSensors [(Coord.mk 0 0, Coord.mk 2 0)]) 0
        = some merged ∧
      (4 : Int) = (merged.map fun p => p.2 - p.1 + 1).sum
        - (((([(Coord.mk 0 0, Coord.mk 2 0)].map Prod.snd).filter
            fun b => b.y = 0).toFinset.card) : Int) :=
  ⟨by decide, part1_covered_count _ _ _ (by decide)⟩

/-- C8: `Sensor.get_coverage_at_row` is absent exactly when
`radius - |row - y| < 0`, otherwise it is the interval
`[x - span, x + span]`; at the sensor's own row it is the interval centred
on the sensor's x with half-width exactly the radius. -/
theorem get_coverage_at_row_spec (s : Sensor) (row : Int)
    (hr : 0 ≤ s.scan_range) :
    (s.get_coverage_at_row row = none ↔
      s.scan_range - |row - s.coord.y| < 0) ∧
    (∀ span : Int, span = s.scan_range - |row - s.coord.y| → 0 ≤ span →
      s.get_coverage_at_row row = some (s.coord.x - span, s.coord.x + span)) ∧
    s.get_coverage_at_row s.coord.y =
      some (s.coord.x - s.scan_range, s.coord.x + s.scan_range) := by
  refine ⟨?_, ?_, ?_⟩
  · simp only [Sensor.get_coverage_at_row]
    split
    next hlt => exact iff_of_true rfl hlt
    next hlt => exact iff_of_false (by simp) hlt
  · intro span hspan hpos
    simp only [Sensor.get_coverage_at_row]
    rw [if_neg (by omega), hspan]
  · simp only [Sensor.get_coverage_at_row, sub_self, abs_zero, sub_zero]
    rw [if_neg (by omega)]

theorem get_coverage_at_row_spec_witness :
    (0 : Int) ≤ (Sensor.mk (Coord.mk 3 4) 2).scan_range ∧
    (((Sensor.mk (Coord.mk 3 4) 2).get_coverage_at_row 0 = none ↔
      (Sensor.mk (Coord.mk 3 4) 2).scan_range
        - |(0 : Int) - (Sensor.mk (Coord.mk 3 4) 2).coord.y| < 0) ∧
    (∀ span : Int,
      span = (Sensor.mk (Coord.mk 3 4) 2).scan_range
        - |(0 : Int) - (Sensor.mk (Coord.mk 3 4) 2).coord.y| → 0 ≤ span →
      (Sensor.mk (Coord.mk 3 4) 2).get_coverage_at_row 0
        = some ((Sensor.mk (Coord.mk 3 4) 2).coord.x - span,
            (Sensor.mk (Coord.mk 3 4) 2).coord.x + span)) ∧
    (Sensor.mk (Coord.mk 3 4) 2).get_coverage_at_row
        (Sensor.mk (Coord.mk 3 4) 2).coord.y =
      some ((Sensor.mk (Coord.mk 3 4) 2).coord.x
          - (Sensor.mk (Coord.mk 3 4) 2).scan_range,
        (Sensor.mk (Coord.mk 3 4) 2).coord.x
          + (Sensor.mk (Coord.mk 3 4) 2).scan_range)) :=
  ⟨by decide, get_coverage_at_row_spec (Sensor.mk (Coord.mk 3 4) 2) 0 (by decide)⟩

/-- C9: a point reported by `part2`'s gap search always has its row
strictly between 0 and the search size: confirmation needs coverage for the
rows directly above and below, which only exists for rows inside
`[0, search_area_size]`. -/
theorem part2_found_row_interior (data : List (Coord × Coord)) (size x r : Int)
    (h : part2Search data size = some (some (x, r))) : 0 < r ∧ r < size := by
  unfold part2Search at h
  cases hb : buildRowCoverage (mkSensors data) (rowRange size) with
  | none =>
    rw [hb] at h
    cases h
  | some rc =>
    rw [hb] at h
    have hsr : searchRows rc (rc.filter fun e => 1 < e.2.length) = some (x, r) :=
      Option.some.inj h
    obtain ⟨c, hmem, hsp⟩ := searchRows_sound rc _ x r hsr
    obtain ⟨-, -, hca, hcb⟩ := searchPairs_sound rc r c x r hsp
    obtain ⟨ca, hla⟩ := coveredAt_lookup rc (r - 1) x hca
    obtain ⟨cb, hlb⟩ := coveredAt_lookup rc (r + 1) x hcb
    obtain ⟨ea, hea, hkeya⟩ := lookupRow_mem rc (r - 1) ca hla
    obtain ⟨eb, heb, hkeyb⟩ := lookupRow_mem rc (r + 1) cb hlb
    have ha := rowRange_mem size (r - 1)
      (hkeya ▸ buildRowCoverage_keys (mkSensors data) (rowRange size) rc hb ea hea)
    have hb2 := rowRange_mem size (r + 1)
      (hkeyb ▸ buildRowCoverage_keys (mkSensors data) (rowRange size) rc hb eb heb)
    omega

theorem part2_found_row_interior_witness :
    part2Search
        [(Coord.mk 0 1, Coord.mk 8 1), (Coord.mk 12 1, Coord.mk 14 1),
          (Coord.mk 9 0, Coord.mk 9 0), (Coord.mk 9 2, Coord.mk 9 2)] 2
      = some (some (9, 1)) ∧
    (0 : Int) < 1 ∧ (1 : Int) < 2 :=
  ⟨by decide,
    part2_found_row_interior
      [(Coord.mk 0 1, Coord.mk 8 1), (Coord.mk 12 1, Coord.mk 14 1),
        (Coord.mk 9 0, Coord.mk 9 0), (Coord.mk 9 2, Coord.mk 9 2)]
      2 9 1 (by decide)⟩

/-- C3 (amended): a candidate `x = left.end + 1` from a gap of exactly 2 in
a candidate row's merged coverage is reported only after `x` is confirmed
covered by the merged coverage of the row directly above and of the row
directly below; no check against the x-axis search bound is performed. -/
theorem part2_gap_report_conditions (data : List (Coord × Coord)) (size x r : Int)
    (h : part2Search data size = some (some (x, r))) :
    ∃ rowCov, buildRowCoverage (mkSensors data) (rowRange size) = some rowCov ∧
      (∃ cov, (r, cov) ∈ rowCov ∧ 1 < cov.length ∧
        ∃ p ∈ cov.zip cov.tail, gap_candidate p.1 p.2 = some x) ∧
      coveredAt rowCov (r - 1) x = true ∧ coveredAt rowCov (r + 1) x = true := by
  unfold part2Search at h
  cases hb : buildRowCoverage (mkSensors data) (rowRange size) with
  | none =>
    rw [hb] at h
    cases h
  | some rc =>
    rw [hb] at h
    have hsr : searchRows rc (rc.filter fun e => 1 < e.2.length) = some (x, r) :=
      Option.some.inj h
    obtain ⟨c, hmem, hsp⟩ := searchRows_sound rc _ x r hsr
    have hmf := List.mem_filter.mp hmem
    obtain ⟨-, hzip, hca, hcb⟩ := searchPairs_sound rc r c x r hsp
    exact ⟨rc, rfl, ⟨c, hmf.1, by simpa using hmf.2, hzip⟩, hca, hcb⟩

theorem part2_gap_report_conditions_witness :
    part2Search
        [(Coord.mk 0 1, Coord.mk 8 1), (Coord.mk 12 1, Coord.mk 14 1),
          (Coord.mk 9 0, Coord.mk 9 0), (Coord.mk 9 2, Coord.mk 9 2)] 2
      = some (some (9, 1)) ∧
    ∃ rowCov,
      buildRowCoverage
          (mkSensors
            [(Coord.mk 0 1, Coord.mk 8 1), (Coord.mk 12 1, Coord.mk 14 1),
              (Coord.mk 9 0, Coord.mk 9 0), (Coord.mk 9 2, Coord.mk 9 2)])
          (rowRange 2) = some rowCov ∧
      (∃ cov, ((1 : Int), cov) ∈ rowCov ∧ 1 < cov.length ∧
        ∃ p ∈ cov.zip cov.tail, gap_candidate p.1 p.2 = some 9) ∧
      coveredAt rowCov (1 - 1) 9 = true ∧ coveredAt rowCov (1 + 1) 9 = true :=
  ⟨by decide,
    part2_gap_report_conditions
      [(Coord.mk 0 1, Coord.mk 8 1), (Coord.mk 12 1, Coord.mk 14 1),
        (Coord.mk 9 0, Coord.mk 9 0), (Coord.mk 9 2, Coord.mk 9 2)]
      2 9 1 (by decide)⟩

/-- C3 (counterexample to the claim as stated): on this input with search
bound `[0, 2]`, the gap search reports the candidate `x = 9`, which lies
outside `[search_min, search_max] = [0, 2]` on the x-axis, and the
candidate is in fact covered (not uncovered) on the rows directly above
and below its row. -/
theorem part2_reports_x_outside_bound :
    part2Search
        [(Coord.mk 0 1, Coord.mk 8 1), (Coord.mk 12 1, Coord.mk 14 1),
          (Coord.mk 9 0, Coord.mk 9 0), (Coord.mk 9 2, Coord.mk 9 2)] 2
      = some (some (9, 1)) ∧
    ¬((9 : Int) ≤ 2) ∧
    buildRowCoverage
        (mkSensors
          [(Coord.mk 0 1, Coord.mk 8 1), (Coord.mk 12 1, Coord.mk 14 1),
            (Coord.mk 9 0, Coord.mk 9 0), (Coord.mk 9 2, Coord.mk 9 2)])
        (rowRange 2)
      = some [(0, [(-7, 7), (9, 9), (11, 13)]), (1, [(-8, 8), (10, 14)]),
          (2, [(-7, 7), (9, 9), (11, 13)])] ∧
    coveredAt
        [(0, [(-7, 7), (9, 9), (11, 13)]), (1, [(-8, 8), (10, 14)]),
          (2, [(-7, 7), (9, 9), (11, 13)])] 0 9 = true ∧
    coveredAt
        [(0, [(-7, 7), (9, 9), (11, 13)]), (1, [(-8, 8), (10, 14)]),
          (2, [(-7, 7), (9, 9), (11, 13)])] 2 9 = true := by
  decide

/-- C2 (failing input): with the single sensor at (0,0) of radius 0, no
sensor covers row 10, yet the solver still hands the empty interval list to
the merge; the merge of zero intervals fails, so `part1` errors instead of
the error branch being unreachable. -/
theorem empty_merge_reached :
    ((mkSensors [(Coord.mk 0 0, Coord.mk 0 0)]).filterMap
        fun s => s.get_coverage_at_row 10) = [] ∧
    blend_coverage_ranges [] = none ∧
    get_sensors_coverage_at_row (mkSensors [(Coord.mk 0 0, Coord.mk 0 0)]) 10 = none ∧
    part1 [(Coord.mk 0 0, Coord.mk 0 0)] 10 = none := by
  decide

/-- C4 (failing input): with two radius-1 sensors just below the search
square and search size 1, row 0 is fully covered on `[0, 1]` and row 1 is
reached by no sensor; `part2` errors on row 1's empty merge instead of
returning the not-found sentinel `-1`. -/
theorem part2_error_on_uncovered_row :
    get_sensors_coverage_at_row
        (mkSensors
          [(Coord.mk 0 (-1), Coord.mk 0 (-2)), (Coord.mk 1 (-1), Coord.mk 1 (-2))]) 0
      = some [(0, 1)] ∧
    get_sensors_coverage_at_row
        (mkSensors
          [(Coord.mk 0 (-1), Coord.mk 0 (-2)), (Coord.mk 1 (-1), Coord.mk 1 (-2))]) 1
      = none ∧
    part2 [(Coord.mk 0 (-1), Coord.mk 0 (-2)), (Coord.mk 1 (-1), Coord.mk 1 (-2))] 1
      = none := by
  decide

/-- C10: every sensor and beacon coordinate produced by `parse` is
non-negative, because the pattern only matches unsigned decimal digits;
a documented-format line with a negative value fails to match and is
silently dropped. -/
theorem parse_coords_nonneg :
    (∀ (input : String) (p : Coord × Coord), p ∈ parse input →
      0 ≤ p.1.x ∧ 0 ≤ p.1.y ∧ 0 ≤ p.2.x ∧ 0 ≤ p.2.y) ∧
    matchLine (("Sensor at x=-1, y=2: closest beacon is at x=3, y=4").toList) = none ∧
    parse ("Sensor at x=-1, y=2: closest beacon is at x=3, y=4") = [] := by
  refine ⟨?_, by decide, by decide⟩
  intro input p hp
  refine parse_foldl_inv
    (fun q => 0 ≤ q.1.x ∧ 0 ≤ q.1.y ∧ 0 ≤ q.2.x ∧ 0 ≤ q.2.y) ?_
    (splitLines input) [] (fun q hq => absurd hq (List.not_mem_nil q)) p hp
  intro line sb hsb
  exact matchLine_nonneg line sb.1 sb.2 (by rw [Prod.mk.eta]; exact hsb)

theorem parse_coords_nonneg_witness :
    ((Coord.mk 1 2, Coord.mk 3 4)
        ∈ parse ("Sensor at x=1, y=2: closest beacon is at x=3, y=4")) ∧
    (0 ≤ (Coord.mk 1 2, Coord.mk 3 4).1.x ∧ 0 ≤ (Coord.mk 1 2, Coord.mk 3 4).1.y ∧
      0 ≤ (Coord.mk 1 2, Coord.mk 3 4).2.x ∧ 0 ≤ (Coord.mk 1 2, Coord.mk 3 4).2.y) :=
  ⟨by decide,
    parse_coords_nonneg.1 ("Sensor at x=1, y=2: closest beacon is at x=3, y=4")
      (Coord.mk 1 2, Coord.mk 3 4) (by decide)⟩
